import Mathlib

/-!
A shallow embedding of the Sigma-protocol core of the libscapi repository:
the AND composition combinator (`SigmaProtocolAnd.cpp`), the
challenge-length discipline shared with the Dlog and DH computations
(`SigmaProtocolDlog.hpp`, `SigmaProtocolDH.hpp`), and the wire codecs of
the Sigma message variants (`SigmaProtocol.hpp`).

C++ strings and byte vectors are embedded as `List Nat` (lists of byte /
character codes).  Raw pointers that may be null are embedded as `Option`.
Code that can throw is embedded as a function into `Outcome`, whose
constructors record the ways a call can leave normal control flow,
including the two kinds of undefined behaviour the covered slice can
reach (null-pointer dereference and out-of-range vector indexing) and the
difference between `throw invalid_argument(...)` (throws an exception
object) and `throw new invalid_argument(...)` (throws a raw pointer,
which a `catch (const invalid_argument &)` / `catch (const logic_error &)`
handler does not match).

Sub-protocols plugged into the AND combinator are heterogeneous and only
reached through the `SigmaVerifierComputation` / `SigmaSimulator`
interfaces of `SigmaProtocol.hpp`; they are embedded as records of
abstract functions (`SubVerifier`, `SubSimulator`, ...), with the
verifier's stored challenge made explicit so that `setChallenge` /
`sampleChallenge` propagation is visible.
-/

/-- Result of running a piece of C++ code that may throw or hit undefined
behaviour.  `invalidArgument` is `throw invalid_argument(...)`;
`invalidArgumentPtr` is `throw new invalid_argument(...)`, which throws a
`std::invalid_argument*` pointer value (a handler catching
`const invalid_argument &` or `const logic_error &` does not match it);
`cheatAttempt` is `throw CheatAttemptException(...)`; `nullDeref` is a
dereference of a null pointer; `indexOutOfRange` is `std::vector`
subscript out of range. -/
inductive Outcome (α : Type) where
  | ok (val : α)
  | invalidArgument (msg : String)
  | invalidArgumentPtr (msg : String)
  | cheatAttempt (msg : String)
  | nullDeref
  | indexOutOfRange
  deriving DecidableEq

/-- True exactly when the outcome is a thrown `CheatAttemptException`. -/
def Outcome.isCheatAttempt : Outcome α → Bool
  | .cheatAttempt _ => true
  | _ => false

/-- The `SigmaProtocolMsg` hierarchy of `SigmaProtocol.hpp` /
`SigmaProtocolDH.hpp`: `SigmaGroupElementMsg` carries one encoded group
element, `SigmaBIMsg` one big integer, `SigmaDHMsg` two encoded group
elements, `SigmaMultipleMsg` an ordered list of sub-messages. -/
inductive Smsg where
  | groupElementMsg (enc : List Nat)
  | biMsg (z : Int)
  | dhMsg (a b : List Nat)
  | multipleMsg (msgs : List Smsg)

/- ------------------------------------------------------------------ -/
/- Wire codecs (SigmaProtocol.hpp lines 396-407, SigmaProtocolDH.hpp
   lines 85-86, and the spec for the parts whose .cpp is not in the
   covered slice).                                                      -/
/- ------------------------------------------------------------------ -/

/-- Little-endian decimal digit characters of `n` (`fuel` bounds the
recursion; used with `fuel = n`).  Digit `d` is the character code
`d + 48`. -/
def natToDigitsLE : Nat → Nat → List Nat
  | 0, _ => []
  | fuel + 1, n => if n = 0 then [] else (n % 10 + 48) :: natToDigitsLE fuel (n / 10)

/-- Decimal character string of a natural number, as produced by
`biginteger::str()` for a non-negative value: `"0"` for zero, otherwise
the digits most-significant first with no leading zeros. -/
def natToChars (n : Nat) : List Nat :=
  if n = 0 then [48] else (natToDigitsLE n n).reverse

/-- Value of a most-significant-first decimal character string, as read
by the `biginteger` constructor from a digit string. -/
def digitsToNat (l : List Nat) : Nat :=
  l.foldl (fun acc c => acc * 10 + (c - 48)) 0

/-- `SigmaBIMsg::toString` (SigmaProtocol.hpp line 406): `z.str()`, the
ASCII decimal representation of the signed big integer (`45` is the code
of the minus sign). -/
def SigmaBIMsg.encode (z : Int) : List Nat :=
  if z < 0 then 45 :: natToChars z.natAbs else natToChars z.toNat

/-- `SigmaBIMsg::initFromString` (SigmaProtocol.hpp line 405):
`z = biginteger(s)`, reading an optional minus sign followed by decimal
digits. -/
def SigmaBIMsg.decode (l : List Nat) : Int :=
  match l with
  | [] => 0
  | c :: rest => if c = 45 then -(digitsToNat rest : Int) else (digitsToNat (c :: rest) : Int)

/-- `SigmaGroupElementMsg::toString` (SigmaProtocol.hpp line 370):
delegates to the element's sendable data, i.e. emits exactly the
element's serialized form. -/
def SigmaGroupElementMsg.encode (enc : List Nat) : List Nat := enc

/-- `SigmaGroupElementMsg::initFromString` (SigmaProtocol.hpp line 369):
delegates the received string to the element's sendable data. -/
def SigmaGroupElementMsg.decode (s : List Nat) : List Nat := s

/-- `SigmaDHMsg::toString` (SigmaProtocolDH.hpp line 86):
`a->toString() + ":" + b->toString()` (`58` is the code of the colon). -/
def SigmaDHMsg.encode (a b : List Nat) : List Nat := a ++ 58 :: b

/-- Splits a character string at the first occurrence of the separator
`sep`, returning the parts before and after it; `none` when `sep` does
not occur. -/
def splitFirstSep (sep : Nat) : List Nat → Option (List Nat × List Nat)
  | [] => none
  | c :: rest =>
    if c = sep then some ([], rest)
    else (splitFirstSep sep rest).map (fun p => (c :: p.1, p.2))

/-- Modelled from the spec: `SigmaDHMsg::initFromString` (declared at
SigmaProtocolDH.hpp line 85; its `.cpp` body is not in the covered
slice).  The spec fixes the `PairMsg` wire format as
`enc(a) + ":" + enc(b)`, "split on the first `:`"; an input with no
colon leaves the message unchanged here (embedded as returning the whole
input as the first component). -/
def SigmaDHMsg.decode (s : List Nat) : List Nat × List Nat :=
  match splitFirstSep 58 s with
  | some p => p
  | none => (s, [])

/-- Modelled from the spec: `SigmaMultipleMsg::toString` (declared at
SigmaProtocol.hpp line 386; its `.cpp` body is not in the covered
slice).  The spec fixes the `CompoundMsg` wire format as the
sub-messages' encodings "concatenated in order, each length-prefixed and
tagged so the receiver ... can decode unambiguously"; the length prefix
is the decimal character string of the sub-message's length, closed by
the tag character `35`. -/
def SigmaMultipleMsg.encode : List (List Nat) → List Nat
  | [] => []
  | p :: rest => natToChars p.length ++ 35 :: (p ++ SigmaMultipleMsg.encode rest)

/-- Recursion core of `SigmaMultipleMsg.decode`; `fuel` bounds the
recursion depth (used with the input's length). -/
def SigmaMultipleMsg.decodeAux : Nat → List Nat → Option (List (List Nat))
  | _, [] => some []
  | 0, _ :: _ => none
  | fuel + 1, c :: rest0 =>
    match splitFirstSep 35 (c :: rest0) with
    | none => none
    | some (pre, rest) =>
      let n := digitsToNat pre
      if n ≤ rest.length then
        (SigmaMultipleMsg.decodeAux fuel (rest.drop n)).map (fun ps => rest.take n :: ps)
      else none

/-- Modelled from the spec: `SigmaMultipleMsg::initFromString` (declared
at SigmaProtocol.hpp line 385; its `.cpp` body is not in the covered
slice): repeatedly reads a decimal length prefix up to the tag character
`35` and takes that many characters as the next sub-message's
encoding. -/
def SigmaMultipleMsg.decode (l : List Nat) : Option (List (List Nat)) :=
  SigmaMultipleMsg.decodeAux l.length l

/- ------------------------------------------------------------------ -/
/- Challenge length discipline.                                         -/
/- ------------------------------------------------------------------ -/

/-- The challenge produced by `gen_random_bytes_vector(e, t / 8, random)`
(SigmaProtocolAnd.cpp lines 143 and 168): exactly `t / 8` bytes (C++
integer division, i.e. `t/8` rounded down) drawn from the byte source
`rnd`. -/
def sampledChallenge (t : Nat) (rnd : Nat → Nat) : List Nat :=
  (List.range (t / 8)).map rnd

/-- `checkChallengeLength` (SigmaProtocolDH.hpp lines 157 and 243):
`size == (t / 8)` with C++ integer division. -/
def checkChallengeLength (size t : Nat) : Bool :=
  size == t / 8

/-- Modelled from the spec: the `checkSoundnessParam` bodies are not in
the covered slice; the spec makes a soundness parameter valid when
`0 < t` and `t ≤ bitlen(q) - 1`. -/
def validSoundnessParam (t qBitLen : Nat) : Prop :=
  0 < t ∧ t ≤ qBitLen - 1

instance (t qBitLen : Nat) : Decidable (validSoundnessParam t qBitLen) :=
  inferInstanceAs (Decidable (And _ _))

/-- Challenge bytes interpreted as an unsigned big-endian integer. -/
def decodeBigEndian (bytes : List Nat) : Nat :=
  bytes.foldl (fun acc b => acc * 256 + b) 0

/-- Modelled from the spec: `SigmaDHProverComputation::computeSecondMsg`
(declared at SigmaProtocolDH.hpp line 220; its `.cpp` body is not in the
covered slice).  Per the header documentation it throws
`CheatAttemptException` when the in-src `checkChallengeLength` fails and
otherwise computes `z = (r + e*w) mod q`. -/
def SigmaDHProverComputation.computeSecondMsg (t q r w : Nat) (challenge : List Nat) :
    Outcome Smsg :=
  if ¬ checkChallengeLength challenge.length t then
    .cheatAttempt "the length of the given challenge is different from the soundness parameter"
  else .ok (.biMsg (((r + decodeBigEndian challenge * w) % q : Nat) : Int))

/- ------------------------------------------------------------------ -/
/- AND composition: SigmaProtocolAnd.cpp.                               -/
/- ------------------------------------------------------------------ -/

/-- An underlying `SigmaVerifierComputation` (SigmaProtocol.hpp lines
157-183) as the AND combinator sees it: an abstract verification
function of the stored challenge, the common input and the two messages,
plus the mutable stored challenge and the soundness parameter. -/
structure SubVerifier (CI : Type) where
  verifyFn : List Nat → CI → Smsg → Smsg → Bool
  challenge : List Nat
  soundness : Nat

/-- `verify(common_input, a, z)` of an underlying verifier: uses its
stored challenge. -/
def SubVerifier.verify (v : SubVerifier CI) (ci : CI) (a z : Smsg) : Bool :=
  v.verifyFn v.challenge ci a z

/-- `setChallenge` of an underlying verifier: stores the bytes. -/
def SubVerifier.setChallenge (v : SubVerifier CI) (e : List Nat) : SubVerifier CI :=
  { v with challenge := e }

/-- `getSoundnessParam` of an underlying verifier. -/
def SubVerifier.getSoundnessParam (v : SubVerifier CI) : Nat :=
  v.soundness

/-- `SigmaANDCommonInput`: an ordered list of sub-common-inputs
(`getInputs`). -/
structure SigmaANDCommonInput (CI : Type) where
  inputs : List CI

/-- `SigmaANDVerifierComputation` state after construction: the
underlying verifiers and the soundness parameter `t` (the stored `len`
is always `verifiers.size()`). -/
structure SigmaANDVerifierComputation (CI : Type) where
  verifiers : List (SubVerifier CI)
  t : Nat

/-- The `SigmaANDVerifierComputation` constructor (SigmaProtocolAnd.cpp
lines 153-163): for each underlying verifier whose soundness parameter
differs from `t` it executes `throw new invalid_argument(...)` - note
the `new`: a raw `std::invalid_argument*` pointer is thrown, embedded as
`Outcome.invalidArgumentPtr`. -/
def mkSigmaANDVerifierComputation (verifiers : List (SubVerifier CI)) (t : Nat) :
    Outcome (SigmaANDVerifierComputation CI) :=
  if verifiers.any (fun v => t ≠ v.soundness) then
    .invalidArgumentPtr
      "the given t does not equal to one of the t values in the underlying verifiers objects."
  else .ok ⟨verifiers, t⟩

/-- `SigmaANDVerifierComputation::sampleChallenge` (SigmaProtocolAnd.cpp
lines 165-173): fills a fresh byte array of size `t / 8` from the random
source and sets it as the challenge of every underlying verifier. -/
def SigmaANDVerifierComputation.sampleChallenge (c : SigmaANDVerifierComputation CI)
    (rnd : Nat → Nat) : SigmaANDVerifierComputation CI :=
  { c with verifiers := c.verifiers.map (fun v => v.setChallenge (sampledChallenge c.t rnd)) }

/-- The `dynamic_cast<SigmaMultipleMsg*>` of a possibly-null
`SigmaProtocolMsg*`: null or a non-`SigmaMultipleMsg` variant casts to
null. -/
def dynCastMultipleMsg : Option Smsg → Option (List Smsg)
  | some (.multipleMsg ms) => some ms
  | _ => none

/-- The verification loop of `SigmaANDVerifierComputation::verify`
(SigmaProtocolAnd.cpp lines 194-196):
`verified = verified && verifiers[i]->verify(verifiersInput[i].get(),
firstMessages[i].get(), secondMessages[i].get())`.  The C++ `&&`
short-circuits: once `verified` is false the right operand - the
sub-verifier call together with the evaluation of its indexing
arguments - is skipped for every remaining `i`, so the loop finishes
with `false` without touching the lists again.  Indexing one of the
message vectors past its end (only reachable while `verified` is still
true) is undefined behaviour. -/
def andVerifyFold (vs : List (SubVerifier CI)) (cis : List CI) (aMsgs zMsgs : List Smsg)
    (verified : Bool) : Outcome Bool :=
  match vs with
  | [] => .ok verified
  | v :: vsRest =>
    if verified then
      match cis, aMsgs, zMsgs with
      | ci :: cisRest, a :: aRest, z :: zRest =>
        andVerifyFold vsRest cisRest aRest zRest (v.verify ci a z)
      | _, _, _ => .indexOutOfRange
    else andVerifyFold vsRest cis.tail aMsgs.tail zMsgs.tail false

/-- Call trace of the same loop (SigmaProtocolAnd.cpp lines 194-196):
the indices `i` at which `verifiers[i]->verify` is actually evaluated.
Because `&&` short-circuits, the call at index `i` happens exactly while
`verified` is still true; once it is false no further sub-verifier is
invoked and the trace ends. -/
def andVerifyInvoked (vs : List (SubVerifier CI)) (cis : List CI) (aMsgs zMsgs : List Smsg)
    (verified : Bool) (i : Nat) : List Nat :=
  match vs with
  | [] => []
  | v :: vsRest =>
    if verified then
      match cis, aMsgs, zMsgs with
      | ci :: cisRest, a :: aRest, z :: zRest =>
        i :: andVerifyInvoked vsRest cisRest aRest zRest (v.verify ci a z) (i + 1)
      | _, _, _ => [i]
    else []

/-- `SigmaANDVerifierComputation::verify` (SigmaProtocolAnd.cpp lines
175-200).  `checkInput` (lines 202-210) compares the sub-input count
with `len`.  The two messages are then downcast with `dynamic_cast`,
but the subsequent null checks test the original pointers `a` and `z`
instead of the cast results `first` and `second` (lines 186-189), so a
non-null message of the wrong variant passes them and
`first->getMessages()` / `second->getMessages()` dereferences a null
pointer. -/
def SigmaANDVerifierComputation.verify (c : SigmaANDVerifierComputation CI)
    (input : SigmaANDCommonInput CI) (a z : Option Smsg) : Outcome Bool :=
  if input.inputs.length ≠ c.verifiers.length then
    .invalidArgument "number of inputs is different from number of underlying verifiers."
  else
    let first := dynCastMultipleMsg a
    let second := dynCastMultipleMsg z
    if a.isNone then .invalidArgument "first message must be an instance of SigmaMultipleMsg"
    else if z.isNone then .invalidArgument "second message must be an instance of SigmaMultipleMsg"
    else
      match first, second with
      | some firstMessages, some secondMessages =>
        andVerifyFold c.verifiers input.inputs firstMessages secondMessages true
      | _, _ => .nullDeref

/-- An underlying `SigmaProverComputation` as the AND combinator's
constructor sees it (only `getSoundnessParam` is consulted there). -/
structure SubProver where
  soundness : Nat

/-- `SigmaANDProverComputation` state after construction. -/
structure SigmaANDProverComputation where
  provers : List SubProver
  t : Nat

/-- The `SigmaANDProverComputation` constructor (SigmaProtocolAnd.cpp
lines 32-42): for each underlying prover whose soundness parameter
differs from `t` it executes `throw invalid_argument(...)` (by value,
catchable as `invalid_argument` / `logic_error`). -/
def mkSigmaANDProverComputation (provers : List SubProver) (t : Nat) :
    Outcome SigmaANDProverComputation :=
  if provers.any (fun p => t ≠ p.soundness) then
    .invalidArgument
      "the given t does not equal to one of the t values in the underlying provers objects."
  else .ok ⟨provers, t⟩

/-- `SigmaSimulatorOutput` (SigmaProtocol.hpp lines 69-101): the
transcript `(a, e, z)`. -/
structure SimOut where
  a : Smsg
  e : List Nat
  z : Smsg

/-- An underlying `SigmaSimulator` (SigmaProtocol.hpp lines 110-126) as
the AND combinator sees it: an abstract simulation function from common
input and challenge to a transcript, plus the soundness parameter. -/
structure SubSimulator (CI : Type) where
  simulateFn : CI → List Nat → SimOut
  soundness : Nat

/-- `SigmaANDSimulator` state after construction. -/
structure SigmaANDSimulator (CI : Type) where
  simulators : List (SubSimulator CI)
  t : Nat

/-- `SigmaANDSimulator::simulate(input, challenge)`
(SigmaProtocolAnd.cpp lines 108-138): rejects a challenge of the wrong
length with `CheatAttemptException`, rejects a sub-input count different
from `len`, then runs every underlying simulator with the same given
challenge and collects the first and second messages, in order, into two
`SigmaMultipleMsg`, outputting `(a, challenge, z)`. -/
def SigmaANDSimulator.simulate (s : SigmaANDSimulator CI) (input : SigmaANDCommonInput CI)
    (challenge : List Nat) : Outcome SimOut :=
  if ¬ checkChallengeLength challenge.length s.t then
    .cheatAttempt "the length of the given challenge is different from the soundness parameter"
  else if input.inputs.length ≠ s.simulators.length then
    .invalidArgument "number of inputs is different from number of underlying simulators."
  else
    let outs := (s.simulators.zip input.inputs).map (fun p => p.1.simulateFn p.2 challenge)
    .ok ⟨.multipleMsg (outs.map SimOut.a), challenge, .multipleMsg (outs.map SimOut.z)⟩

/-- `SigmaANDSimulator::simulate(input)` (SigmaProtocolAnd.cpp lines
140-147): samples a fresh challenge of `t / 8` bytes once and calls the
two-argument `simulate` with it. -/
def SigmaANDSimulator.simulateSampled (s : SigmaANDSimulator CI)
    (input : SigmaANDCommonInput CI) (rnd : Nat → Nat) : Outcome SimOut :=
  s.simulate input (sampledChallenge s.t rnd)

/-- An underlying `SigmaProverInput` (SigmaProtocol.hpp lines 37-43) as
`SigmaANDProverInput` sees it: `getCommonInput` is its only interface
operation. -/
structure SubProverInput (CI : Type) where
  commonInput : CI

/-- `getCommonInput()` of an underlying prover input. -/
def SubProverInput.getCommonInput (p : SubProverInput CI) : CI :=
  p.commonInput

/-- `SigmaANDProverInput`: an ordered list of sub-prover-inputs. -/
structure SigmaANDProverInput (CI : Type) where
  sigmaInputs : List (SubProverInput CI)

/-- `SigmaANDProverInput::getCommonInput` (SigmaProtocolAnd.cpp lines
7-26): builds a fresh `SigmaANDCommonInput` by pushing each
sub-prover-input's `getCommonInput()` in order. -/
def SigmaANDProverInput.getCommonInput (p : SigmaANDProverInput CI) :
    SigmaANDCommonInput CI :=
  ⟨p.sigmaInputs.map SubProverInput.getCommonInput⟩

/- ------------------------------------------------------------------ -/
/- Dlog / DH verifier computation challenge state.                      -/
/- ------------------------------------------------------------------ -/

/-- The challenge-relevant state of `SigmaDlogVerifierComputation`
(SigmaProtocolDlog.hpp lines 212-216): soundness parameter `t` and
stored challenge `e`. -/
structure SigmaDlogVerifierComputation where
  t : Nat
  e : List Nat

/-- `SigmaDlogVerifierComputation::setChallenge` (SigmaProtocolDlog.hpp
line 194): the body is the plain assignment `e = challenge`; no length
validation of any kind. -/
def SigmaDlogVerifierComputation.setChallenge (c : SigmaDlogVerifierComputation)
    (challenge : List Nat) : SigmaDlogVerifierComputation :=
  { c with e := challenge }

/-- `SigmaDlogVerifierComputation::getChallenge` (SigmaProtocolDlog.hpp
line 199). -/
def SigmaDlogVerifierComputation.getChallenge (c : SigmaDlogVerifierComputation) :
    List Nat :=
  c.e

/-- The challenge-relevant state of `SigmaDHVerifierComputation`
(SigmaProtocolDH.hpp lines 321-325). -/
structure SigmaDHVerifierComputation where
  t : Nat
  e : List Nat

/-- `SigmaDHVerifierComputation::setChallenge` (SigmaProtocolDH.hpp
lines 298-300): the body is the plain assignment `e = challenge`. -/
def SigmaDHVerifierComputation.setChallenge (c : SigmaDHVerifierComputation)
    (challenge : List Nat) : SigmaDHVerifierComputation :=
  { c with e := challenge }

/-- `SigmaDHVerifierComputation::getChallenge` (SigmaProtocolDH.hpp line
306). -/
def SigmaDHVerifierComputation.getChallenge (c : SigmaDHVerifierComputation) :
    List Nat :=
  c.e

/- ------------------------------------------------------------------ -/
/- Helper lemmas.                                                       -/
/- ------------------------------------------------------------------ -/

/-- Once `verified` is false, the verification loop finishes with
`false` without invoking anything. -/
theorem andVerifyFold_false {CI : Type} (vs : List (SubVerifier CI)) (cis : List CI)
    (aMsgs zMsgs : List Smsg) :
    andVerifyFold vs cis aMsgs zMsgs false = .ok false := by
  induction vs generalizing cis aMsgs zMsgs with
  | nil => rfl
  | cons v vsRest ih => simpa [andVerifyFold] using ih ..

/-- The verification loop accepts exactly when the accumulator is true
and every sub-verifier accepts its slice of the inputs. -/
theorem andVerifyFold_ok_true_iff {CI : Type} (vs : List (SubVerifier CI)) (cis : List CI)
    (aMsgs zMsgs : List Smsg) (b : Bool)
    (h1 : cis.length = vs.length) (h2 : aMsgs.length = vs.length)
    (h3 : zMsgs.length = vs.length) :
    andVerifyFold vs cis aMsgs zMsgs b = .ok true ↔
      (b = true ∧ ∀ (i : Nat) (h : i < vs.length),
        (vs.get ⟨i, h⟩).verify (cis.get ⟨i, by omega⟩) (aMsgs.get ⟨i, by omega⟩)
          (zMsgs.get ⟨i, by omega⟩) = true) := by
  induction vs generalizing cis aMsgs zMsgs b with
  | nil =>
    simp [andVerifyFold]
  | cons v vsRest ih =>
    cases cis with
    | nil => simp at h1
    | cons ci cisRest =>
      cases aMsgs with
      | nil => simp at h2
      | cons a aRest =>
        cases zMsgs with
        | nil => simp at h3
        | cons z zRest =>
          simp only [List.length_cons, Nat.add_right_cancel_iff] at h1 h2 h3
          cases b with
          | false =>
            rw [andVerifyFold_false]
            constructor
            · intro hcontra; simp at hcontra
            · rintro ⟨hcontra, -⟩; simp at hcontra
          | true =>
            have hstep :
                andVerifyFold (v :: vsRest) (ci :: cisRest) (a :: aRest) (z :: zRest) true
                  = andVerifyFold vsRest cisRest aRest zRest (v.verify ci a z) := rfl
            rw [hstep, ih cisRest aRest zRest _ h1 h2 h3]
            constructor
            · rintro ⟨hv, hrest⟩
              refine ⟨rfl, ?_⟩
              intro i h
              cases i with
              | zero => exact hv
              | succ j => exact hrest j (by simp only [List.length_cons] at h; omega)
            · rintro ⟨-, hall⟩
              refine ⟨hall 0 (by simp), ?_⟩
              intro i h
              exact hall (i + 1) (by simp only [List.length_cons]; omega)

/-- With both messages of the `SigmaMultipleMsg` variant and a matching
sub-input count, `verify` reduces to the verification loop. -/
theorem sigma_and_verify_reduces {CI : Type} (c : SigmaANDVerifierComputation CI)
    (input : SigmaANDCommonInput CI) (aMsgs zMsgs : List Smsg)
    (h : input.inputs.length = c.verifiers.length) :
    c.verify input (some (.multipleMsg aMsgs)) (some (.multipleMsg zMsgs)) =
      andVerifyFold c.verifiers input.inputs aMsgs zMsgs true := by
  unfold SigmaANDVerifierComputation.verify
  rw [if_neg (by omega)]
  rfl

/- ------------------------------------------------------------------ -/
/- C1.                                                                  -/
/- ------------------------------------------------------------------ -/

/-- C1: for a `SigmaANDVerifierComputation` over N sub-verifiers, an AND
common input with N sub-inputs and compound messages of N components
each, after the single challenge is sampled and propagated, `verify`
returns true if and only if every sub-verifier accepts its own
`(common_input_i, a_i, z_i)` under that same shared challenge. -/
theorem sigma_and_verify_ok_true_iff_all_sub_accept {CI : Type}
    (c : SigmaANDVerifierComputation CI) (rnd : Nat → Nat)
    (input : SigmaANDCommonInput CI) (aMsgs zMsgs : List Smsg)
    (h1 : input.inputs.length = c.verifiers.length)
    (h2 : aMsgs.length = c.verifiers.length) (h3 : zMsgs.length = c.verifiers.length) :
    (c.sampleChallenge rnd).verify input
        (some (.multipleMsg aMsgs)) (some (.multipleMsg zMsgs)) = .ok true ↔
      ∀ (i : Nat) (h : i < c.verifiers.length),
        (c.verifiers.get ⟨i, h⟩).verifyFn (sampledChallenge c.t rnd)
          (input.inputs.get ⟨i, by omega⟩) (aMsgs.get ⟨i, by omega⟩)
          (zMsgs.get ⟨i, by omega⟩) = true := by
  have hmap : (c.sampleChallenge rnd).verifiers
      = c.verifiers.map (fun v => v.setChallenge (sampledChallenge c.t rnd)) := rfl
  have hlen : (c.sampleChallenge rnd).verifiers.length = c.verifiers.length := by
    rw [hmap, List.length_map]
  rw [sigma_and_verify_reduces _ _ _ _ (by omega)]
  have ht : (c.sampleChallenge rnd).t = c.t := rfl
  rw [hmap, andVerifyFold_ok_true_iff _ _ _ _ _ (by simp; omega) (by simp; omega)
      (by simp; omega)]
  simp only [true_and]
  constructor
  · intro hall i h
    have := hall i (by simp; omega)
    simpa [List.get_eq_getElem, List.getElem_map, SubVerifier.verify,
      SubVerifier.setChallenge] using this
  · intro hall i h
    have hi : i < c.verifiers.length := by simpa using h
    have := hall i hi
    simpa [List.get_eq_getElem, List.getElem_map, SubVerifier.verify,
      SubVerifier.setChallenge] using this

/-- Witness for C1 at a concrete one-verifier instance whose underlying
check accepts. -/
theorem sigma_and_verify_ok_true_iff_all_sub_accept_witness :
    (SigmaANDVerifierComputation.sampleChallenge
        (⟨[⟨fun _ _ _ _ => true, [], 8⟩], 8⟩ : SigmaANDVerifierComputation Nat)
        (fun _ => 7)).verify ⟨[0]⟩
      (some (.multipleMsg [.biMsg 0])) (some (.multipleMsg [.biMsg 1])) = .ok true := by
  have h := sigma_and_verify_ok_true_iff_all_sub_accept
    (⟨[⟨fun _ _ _ _ => true, [], 8⟩], 8⟩ : SigmaANDVerifierComputation Nat)
    (fun _ => 7) ⟨[0]⟩ [.biMsg 0] [.biMsg 1] rfl rfl rfl
  refine h.mpr ?_
  intro i hi
  cases i with
  | zero => rfl
  | succ j =>
    have hi2 : j + 1 < 1 := hi
    omega

/- ------------------------------------------------------------------ -/
/- C3.                                                                  -/
/- ------------------------------------------------------------------ -/

/-- C3: evaluation of `SigmaANDVerifierComputation::verify` at the
failing input.  A non-null first message of the wrong variant
(`SigmaBIMsg`) passes the `!a` null check - the code tests the original
pointers instead of the `dynamic_cast` results - and the call then
dereferences the null cast result (`first->getMessages()`), undefined
behaviour, instead of throwing `invalid_argument`.  Only a null message
pointer reaches the `invalid_argument` throws. -/
theorem sigma_and_verify_wrong_variant_null_deref :
    SigmaANDVerifierComputation.verify (⟨[], 8⟩ : SigmaANDVerifierComputation Unit) ⟨[]⟩
        (some (.biMsg 1)) (some (.multipleMsg [])) = .nullDeref ∧
    SigmaANDVerifierComputation.verify (⟨[], 8⟩ : SigmaANDVerifierComputation Unit) ⟨[]⟩
        (some (.multipleMsg [])) (some (.biMsg 1)) = .nullDeref ∧
    SigmaANDVerifierComputation.verify (⟨[], 8⟩ : SigmaANDVerifierComputation Unit) ⟨[]⟩
        none (some (.multipleMsg [])) =
      .invalidArgument "first message must be an instance of SigmaMultipleMsg" ∧
    SigmaANDVerifierComputation.verify (⟨[], 8⟩ : SigmaANDVerifierComputation Unit) ⟨[]⟩
        (some (.multipleMsg [])) none =
      .invalidArgument "second message must be an instance of SigmaMultipleMsg" :=
  ⟨rfl, rfl, rfl, rfl⟩

/- ------------------------------------------------------------------ -/
/- C5.                                                                  -/
/- ------------------------------------------------------------------ -/

/-- C5: evaluation of the two AND constructors at a mismatched soundness
parameter.  The prover constructor throws an `invalid_argument`
exception object (catchable as `invalid_argument` / `logic_error`), but
the verifier constructor executes `throw new invalid_argument(...)`,
which throws a raw `std::invalid_argument*` pointer that such handlers
do not catch; with matching parameters both succeed. -/
theorem sigma_and_ctor_pointer_throw :
    mkSigmaANDVerifierComputation ([⟨fun _ _ _ _ => true, [], 80⟩] : List (SubVerifier Unit)) 40 =
      .invalidArgumentPtr
        "the given t does not equal to one of the t values in the underlying verifiers objects." ∧
    mkSigmaANDProverComputation [⟨80⟩] 40 =
      .invalidArgument
        "the given t does not equal to one of the t values in the underlying provers objects." ∧
    mkSigmaANDProverComputation [⟨40⟩, ⟨40⟩] 40 = .ok ⟨[⟨40⟩, ⟨40⟩], 40⟩ ∧
    mkSigmaANDVerifierComputation ([⟨fun _ _ _ _ => true, [], 40⟩] : List (SubVerifier Unit)) 40 =
      .ok ⟨[⟨fun _ _ _ _ => true, [], 40⟩], 40⟩ :=
  ⟨rfl, rfl, rfl, rfl⟩

/- ------------------------------------------------------------------ -/
/- C8.                                                                  -/
/- ------------------------------------------------------------------ -/

/-- C8: `SigmaANDProverInput::getCommonInput` returns a
`SigmaANDCommonInput` whose sub-input list has the same length as the
sub-prover-input list and whose i-th entry is the i-th
sub-prover-input's `getCommonInput()`, in order. -/
theorem sigma_and_prover_input_getCommonInput (CI : Type) (p : SigmaANDProverInput CI) :
    (p.getCommonInput).inputs.length = p.sigmaInputs.length ∧
    ∀ (i : Nat) (h : i < p.sigmaInputs.length),
      (p.getCommonInput).inputs[i]? =
        some ((p.sigmaInputs.get ⟨i, h⟩).getCommonInput) := by
  constructor
  · simp [SigmaANDProverInput.getCommonInput]
  · intro i h
    simp [SigmaANDProverInput.getCommonInput, List.getElem?_map,
      List.getElem?_eq_getElem, h, List.get_eq_getElem]

/-- Witness for C8 at a concrete two-element prover input. -/
theorem sigma_and_prover_input_getCommonInput_witness :
    ((⟨[⟨3⟩, ⟨5⟩]⟩ : SigmaANDProverInput Nat).getCommonInput).inputs.length = 2 ∧
    ((⟨[⟨3⟩, ⟨5⟩]⟩ : SigmaANDProverInput Nat).getCommonInput).inputs[1]? = some 5 := by
  have h := sigma_and_prover_input_getCommonInput Nat ⟨[⟨3⟩, ⟨5⟩]⟩
  exact ⟨h.1, h.2 1 (by decide)⟩

/- ------------------------------------------------------------------ -/
/- C9.                                                                  -/
/- ------------------------------------------------------------------ -/

/-- C9: for both the Dlog and the DH verifier computation,
`setChallenge` stores the given byte vector unconditionally - the result
is the same state with `e` replaced, for a vector of any length, with no
`ceil(t/8)` validation and no exception path - and `getChallenge` then
returns exactly those bytes. -/
theorem dlog_dh_setChallenge_unconditional :
    (∀ (c : SigmaDlogVerifierComputation) (ch : List Nat),
        c.setChallenge ch = ⟨c.t, ch⟩ ∧ (c.setChallenge ch).getChallenge = ch) ∧
    (∀ (c : SigmaDHVerifierComputation) (ch : List Nat),
        c.setChallenge ch = ⟨c.t, ch⟩ ∧ (c.setChallenge ch).getChallenge = ch) :=
  ⟨fun _ _ => ⟨rfl, rfl⟩, fun _ _ => ⟨rfl, rfl⟩⟩

/- ------------------------------------------------------------------ -/
/- C10.                                                                 -/
/- ------------------------------------------------------------------ -/

/-- C10: a `SigmaANDVerifierComputation` over the empty list of
sub-verifiers is built successfully, and its `verify`, on an AND common
input with an empty sub-input list and any two `SigmaMultipleMsg`
messages, returns true vacuously. -/
theorem sigma_and_verify_empty_accepts (CI : Type) (t : Nat) (ms1 ms2 : List Smsg) :
    mkSigmaANDVerifierComputation ([] : List (SubVerifier CI)) t = .ok ⟨[], t⟩ ∧
    SigmaANDVerifierComputation.verify (⟨[], t⟩ : SigmaANDVerifierComputation CI) ⟨[]⟩
      (some (.multipleMsg ms1)) (some (.multipleMsg ms2)) = .ok true :=
  ⟨rfl, rfl⟩

/- ------------------------------------------------------------------ -/
/- C2.                                                                  -/
/- ------------------------------------------------------------------ -/

/-- C2 counterexample: at the valid soundness parameter `t = 9` (valid
for any group of order at least 100 bits) a challenge has `ceil(9/8) = 2`
bytes according to the claim, but the code samples `9 / 8 = 1` byte and
`checkChallengeLength` rejects the 2-byte length the claim requires. -/
theorem challenge_length_not_ceil_counterexample :
    validSoundnessParam 9 100 ∧
    (sampledChallenge 9 (fun _ => 0)).length = 1 ∧
    (9 + 7) / 8 = 2 ∧
    checkChallengeLength 2 9 = false := by
  exact ⟨⟨by omega, by omega⟩, by decide, by decide, by decide⟩

/-- C2 (amended): everywhere a challenge appears its byte length equals
`t / 8` with C++ integer division (the floor, which agrees with
`ceil(t/8)` exactly when `8` divides `t`): challenge sampling draws
exactly `t / 8` bytes; `checkChallengeLength` accepts exactly the
length `t / 8`; `SigmaANDSimulator::simulate` raises
`CheatAttemptException` exactly when given a challenge whose byte length
differs from `t / 8`; the DH `computeSecondMsg` does the same; and the
sampling `simulate` form never raises a cheat attempt, since the
challenge it samples has the accepted length. -/
theorem challenge_length_floor_everywhere (CI : Type) :
    (∀ (t : Nat) (rnd : Nat → Nat), (sampledChallenge t rnd).length = t / 8) ∧
    (∀ (size t : Nat), checkChallengeLength size t = true ↔ size = t / 8) ∧
    (∀ (s : SigmaANDSimulator CI) (input : SigmaANDCommonInput CI) (ch : List Nat),
        (s.simulate input ch).isCheatAttempt = true ↔ ch.length ≠ s.t / 8) ∧
    (∀ (t q r w : Nat) (ch : List Nat),
        (SigmaDHProverComputation.computeSecondMsg t q r w ch).isCheatAttempt = true ↔
          ch.length ≠ t / 8) ∧
    (∀ (s : SigmaANDSimulator CI) (input : SigmaANDCommonInput CI) (rnd : Nat → Nat),
        (s.simulateSampled input rnd).isCheatAttempt = false) := by
  have hsample : ∀ (t : Nat) (rnd : Nat → Nat), (sampledChallenge t rnd).length = t / 8 := by
    intro t rnd
    simp [sampledChallenge]
  have hcheck : ∀ (size t : Nat), checkChallengeLength size t = true ↔ size = t / 8 := by
    intro size t
    simp [checkChallengeLength]
  have hsim : ∀ (s : SigmaANDSimulator CI) (input : SigmaANDCommonInput CI) (ch : List Nat),
      (s.simulate input ch).isCheatAttempt = true ↔ ch.length ≠ s.t / 8 := by
    intro s input ch
    by_cases hlen : checkChallengeLength ch.length s.t = true
    · have hout : (s.simulate input ch).isCheatAttempt = false := by
        unfold SigmaANDSimulator.simulate
        rw [if_neg (by simp [hlen])]
        split
        · rfl
        · rfl
      rw [hout]
      simp [checkChallengeLength] at hlen
      simp [hlen]
    · have hne : ch.length ≠ s.t / 8 := by simpa [checkChallengeLength] using hlen
      have hout : (s.simulate input ch).isCheatAttempt = true := by
        unfold SigmaANDSimulator.simulate
        rw [if_pos hlen]
        rfl
      rw [hout]
      simp [hne]
  refine ⟨hsample, hcheck, hsim, ?_, ?_⟩
  · intro t q r w ch
    by_cases hlen : checkChallengeLength ch.length t = true
    · have hout : (SigmaDHProverComputation.computeSecondMsg t q r w ch).isCheatAttempt
          = false := by
        unfold SigmaDHProverComputation.computeSecondMsg
        rw [if_neg (by simp [hlen])]
        rfl
      rw [hout]
      simp [checkChallengeLength] at hlen
      simp [hlen]
    · have hne : ch.length ≠ t / 8 := by simpa [checkChallengeLength] using hlen
      have hout : (SigmaDHProverComputation.computeSecondMsg t q r w ch).isCheatAttempt
          = true := by
        unfold SigmaDHProverComputation.computeSecondMsg
        rw [if_pos hlen]
        rfl
      rw [hout]
      simp [hne]
  · intro s input rnd
    have hok := (hsim s input (sampledChallenge s.t rnd))
    have hlen := hsample s.t rnd
    cases hout : (s.simulateSampled input rnd).isCheatAttempt with
    | false => rfl
    | true =>
      have := hok.mp hout
      exact absurd hlen this

/- ------------------------------------------------------------------ -/
/- C6.                                                                  -/
/- ------------------------------------------------------------------ -/

/-- C6: `SigmaANDSimulator::simulate`, given an AND common input of N
sub-inputs and a challenge of the accepted length, invokes each of the N
sub-simulators with that same challenge, and outputs the transcript
whose first message is the compound message of the sub-first-messages in
order, whose challenge is the given one, and whose second message is the
compound message of the sub-second-messages in order; the
challenge-sampling form samples once and calls the same computation with
the sampled challenge shared by all sub-simulators. -/
theorem sigma_and_simulate_shares_challenge {CI : Type} (s : SigmaANDSimulator CI)
    (input : SigmaANDCommonInput CI) (challenge : List Nat) (rnd : Nat → Nat)
    (h1 : challenge.length = s.t / 8) (h2 : input.inputs.length = s.simulators.length) :
    (∃ aList zList : List Smsg,
      s.simulate input challenge = .ok ⟨.multipleMsg aList, challenge, .multipleMsg zList⟩ ∧
      aList.length = s.simulators.length ∧ zList.length = s.simulators.length ∧
      ∀ (i : Nat) (h : i < s.simulators.length),
        aList[i]? = some (((s.simulators.get ⟨i, h⟩).simulateFn
          (input.inputs.get ⟨i, by omega⟩) challenge).a) ∧
        zList[i]? = some (((s.simulators.get ⟨i, h⟩).simulateFn
          (input.inputs.get ⟨i, by omega⟩) challenge).z)) ∧
    s.simulateSampled input rnd = s.simulate input (sampledChallenge s.t rnd) := by
  constructor
  · have hred : s.simulate input challenge =
        .ok ⟨.multipleMsg (((s.simulators.zip input.inputs).map
              (fun p => p.1.simulateFn p.2 challenge)).map SimOut.a), challenge,
            .multipleMsg (((s.simulators.zip input.inputs).map
              (fun p => p.1.simulateFn p.2 challenge)).map SimOut.z)⟩ := by
      unfold SigmaANDSimulator.simulate
      rw [if_neg (by simp [checkChallengeLength, h1]), if_neg (by omega)]
    refine ⟨_, _, hred, ?_, ?_, ?_⟩
    · simp [List.length_zip, h2]
    · simp [List.length_zip, h2]
    · intro i h
      have hzlen : i < ((s.simulators.zip input.inputs).map
          (fun p => p.1.simulateFn p.2 challenge)).length := by
        simp [List.length_zip, h2]
        omega
      constructor
      · rw [List.getElem?_map, List.getElem?_eq_getElem (by simpa using hzlen)]
        simp [List.getElem_zip, List.get_eq_getElem]
      · rw [List.getElem?_map, List.getElem?_eq_getElem (by simpa using hzlen)]
        simp [List.getElem_zip, List.get_eq_getElem]
  · rfl

/-- Witness for C6 at a concrete one-simulator instance
(`t = 8`, one-byte challenge `[9]`). -/
theorem sigma_and_simulate_shares_challenge_witness :
    ∃ aList zList : List Smsg,
      SigmaANDSimulator.simulate
          (⟨[⟨fun ci ch => ⟨.biMsg (Int.ofNat ci), ch, .biMsg 7⟩, 8⟩], 8⟩ :
            SigmaANDSimulator Nat) ⟨[5]⟩ [9]
        = .ok ⟨.multipleMsg aList, [9], .multipleMsg zList⟩ := by
  obtain ⟨aL, zL, heq, -⟩ := (sigma_and_simulate_shares_challenge
    (⟨[⟨fun ci ch => ⟨.biMsg (Int.ofNat ci), ch, .biMsg 7⟩, 8⟩], 8⟩ : SigmaANDSimulator Nat)
    ⟨[5]⟩ [9] (fun _ => 3) rfl rfl).1
  exact ⟨aL, zL, heq⟩

/- ------------------------------------------------------------------ -/
/- C4.                                                                  -/
/- ------------------------------------------------------------------ -/

/-- Once `verified` is false, no further sub-verifier is invoked. -/
theorem andVerifyInvoked_false {CI : Type} (vs : List (SubVerifier CI)) (cis : List CI)
    (aMsgs zMsgs : List Smsg) (i : Nat) :
    andVerifyInvoked vs cis aMsgs zMsgs false i = [] := by
  cases vs with
  | nil => rfl
  | cons v vsRest => rfl

/-- Shifting the starting index of the call trace shifts every recorded
index. -/
theorem andVerifyInvoked_shift {CI : Type} (vs : List (SubVerifier CI)) (cis : List CI)
    (aMsgs zMsgs : List Smsg) (b : Bool) (k : Nat) :
    andVerifyInvoked vs cis aMsgs zMsgs b (k + 1) =
      (andVerifyInvoked vs cis aMsgs zMsgs b k).map (fun j => j + 1) := by
  induction vs generalizing cis aMsgs zMsgs b k with
  | nil => rfl
  | cons v vsRest ih =>
    cases b with
    | false => rw [andVerifyInvoked_false, andVerifyInvoked_false]; rfl
    | true =>
      cases cis with
      | nil => rfl
      | cons ci cisRest =>
        cases aMsgs with
        | nil => rfl
        | cons a aRest =>
          cases zMsgs with
          | nil => rfl
          | cons z zRest =>
            show (k + 1) :: andVerifyInvoked vsRest cisRest aRest zRest
                (v.verify ci a z) (k + 1 + 1) = _
            rw [ih]
            rfl

/-- C4 (amended): in the `verify` loop, sub-verifier `i` is invoked if
and only if `i` is in range and every sub-verifier before `i` returned
true: the C++ `&&` short-circuits, so after the first sub-verification
returning false the remaining sub-verifiers' `verify` calls are skipped
(the returned value is still the conjunction of the evaluated ones). -/
theorem andVerifyInvoked_mem_iff {CI : Type} (vs : List (SubVerifier CI)) (cis : List CI)
    (aMsgs zMsgs : List Smsg)
    (h1 : cis.length = vs.length) (h2 : aMsgs.length = vs.length)
    (h3 : zMsgs.length = vs.length) (i : Nat) :
    i ∈ andVerifyInvoked vs cis aMsgs zMsgs true 0 ↔
      ∃ hi : i < vs.length, ∀ (j : Nat) (hj : j < i),
        (vs.get ⟨j, by omega⟩).verify (cis.get ⟨j, by omega⟩)
          (aMsgs.get ⟨j, by omega⟩) (zMsgs.get ⟨j, by omega⟩) = true := by
  induction vs generalizing cis aMsgs zMsgs i with
  | nil =>
    simp [andVerifyInvoked]
  | cons v vsRest ih =>
    cases cis with
    | nil => simp at h1
    | cons ci cisRest =>
      cases aMsgs with
      | nil => simp at h2
      | cons a aRest =>
        cases zMsgs with
        | nil => simp at h3
        | cons z zRest =>
          simp only [List.length_cons, Nat.add_right_cancel_iff] at h1 h2 h3
          have hhead :
              andVerifyInvoked (v :: vsRest) (ci :: cisRest) (a :: aRest) (z :: zRest) true 0
                = 0 :: andVerifyInvoked vsRest cisRest aRest zRest (v.verify ci a z) 1 := rfl
          rw [hhead]
          cases hr0 : v.verify ci a z with
          | false =>
            rw [andVerifyInvoked_false]
            constructor
            · intro hmem
              have hi0 : i = 0 := by simpa using hmem
              subst hi0
              exact ⟨by simp, fun j hj => by omega⟩
            · rintro ⟨hi, hall⟩
              cases i with
              | zero => simp
              | succ i2 =>
                have hfalse : v.verify ci a z = true := hall 0 (by omega)
                rw [hr0] at hfalse
                simp at hfalse
          | true =>
            have hshift : andVerifyInvoked vsRest cisRest aRest zRest true 1
                = (andVerifyInvoked vsRest cisRest aRest zRest true 0).map
                    (fun j => j + 1) :=
              andVerifyInvoked_shift vsRest cisRest aRest zRest true 0
            rw [hshift]
            constructor
            · intro hmem
              rcases List.mem_cons.mp hmem with hi0 | hmem2
              · subst hi0
                exact ⟨by simp, fun j hj => by omega⟩
              · rcases List.mem_map.mp hmem2 with ⟨i0, hi0mem, hi0eq⟩
                have hchar := (ih cisRest aRest zRest h1 h2 h3 i0).mp hi0mem
                rcases hchar with ⟨hi0lt, hall0⟩
                refine ⟨by simp only [List.length_cons]; omega, ?_⟩
                intro j hj
                cases j with
                | zero => exact hr0
                | succ j2 =>
                  have hj2 : j2 < i0 := by omega
                  exact hall0 j2 hj2
            · rintro ⟨hi, hall⟩
              cases i with
              | zero => exact List.mem_cons_self ..
              | succ i2 =>
                refine List.mem_cons.mpr (Or.inr ?_)
                refine List.mem_map.mpr ⟨i2, ?_, rfl⟩
                refine (ih cisRest aRest zRest h1 h2 h3 i2).mpr ?_
                refine ⟨by simp only [List.length_cons] at hi; omega, ?_⟩
                intro j hj
                exact hall (j + 1) (by omega)

/-- Witness for C4 (amended) at a concrete two-verifier instance whose
first sub-verifier accepts: index 1 is invoked. -/
theorem andVerifyInvoked_mem_iff_witness :
    1 ∈ andVerifyInvoked
        ([⟨fun _ _ _ _ => true, [], 8⟩, ⟨fun _ _ _ _ => true, [], 8⟩] :
          List (SubVerifier Unit))
        [(), ()] [.biMsg 0, .biMsg 0] [.biMsg 0, .biMsg 0] true 0 := by
  refine (andVerifyInvoked_mem_iff _ _ _ _ rfl rfl rfl 1).mpr ⟨by decide, ?_⟩
  intro j hj
  cases j with
  | zero => rfl
  | succ j2 => omega

/-- C4 counterexample: over N = 2 sub-verifiers, with the first
sub-verifier returning false, the call trace of the loop is `[0]` - the
second sub-verifier's `verify` is never invoked, because the C++ `&&`
short-circuits - while the call still completes and returns the
conjunction `false`. -/
theorem andVerifyInvoked_skips_after_false :
    andVerifyInvoked
        ([⟨fun _ _ _ _ => false, [], 8⟩, ⟨fun _ _ _ _ => true, [], 8⟩] :
          List (SubVerifier Unit))
        [(), ()] [.biMsg 0, .biMsg 0] [.biMsg 0, .biMsg 0] true 0 = [0] ∧
    SigmaANDVerifierComputation.verify
        (⟨[⟨fun _ _ _ _ => false, [], 8⟩, ⟨fun _ _ _ _ => true, [], 8⟩], 8⟩ :
          SigmaANDVerifierComputation Unit) ⟨[(), ()]⟩
        (some (.multipleMsg [.biMsg 0, .biMsg 0]))
        (some (.multipleMsg [.biMsg 0, .biMsg 0])) = .ok false :=
  ⟨rfl, rfl⟩

/- ------------------------------------------------------------------ -/
/- C7.                                                                  -/
/- ------------------------------------------------------------------ -/

/-- Folding the decimal parser over the reversed little-endian digit
characters of `n` recovers `n` (with the accumulator scaled by the
number of digits). -/
theorem digitsToNat_foldl_natToDigitsLE (fuel : Nat) :
    ∀ (n acc : Nat), n ≤ fuel →
      (natToDigitsLE fuel n).reverse.foldl (fun a c => a * 10 + (c - 48)) acc
        = acc * 10 ^ (natToDigitsLE fuel n).length + n := by
  induction fuel with
  | zero =>
    intro n acc h
    have hn : n = 0 := by omega
    subst hn
    simp [natToDigitsLE]
  | succ fuel ih =>
    intro n acc h
    by_cases hn : n = 0
    · subst hn
      simp [natToDigitsLE]
    · have hstep : natToDigitsLE (fuel + 1) n
          = (n % 10 + 48) :: natToDigitsLE fuel (n / 10) := by
        simp [natToDigitsLE, hn]
      have hdiv : n / 10 ≤ fuel := by
        have hlt : n / 10 < n := Nat.div_lt_self (Nat.pos_of_ne_zero hn) (by omega)
        omega
      rw [hstep]
      simp only [List.reverse_cons, List.foldl_append, List.foldl_cons, List.foldl_nil,
        List.length_cons]
      rw [ih (n / 10) acc hdiv]
      have hmod : n % 10 + 48 - 48 = n % 10 := by omega
      rw [hmod]
      have hdm : 10 * (n / 10) + n % 10 = n := Nat.div_add_mod n 10
      calc (acc * 10 ^ (natToDigitsLE fuel (n / 10)).length + n / 10) * 10 + n % 10
          = acc * (10 ^ (natToDigitsLE fuel (n / 10)).length * 10)
              + (10 * (n / 10) + n % 10) := by ring
        _ = acc * 10 ^ ((natToDigitsLE fuel (n / 10)).length + 1) + n := by
            rw [hdm, pow_succ]

/-- Parsing the decimal character string of `n` recovers `n`. -/
theorem digitsToNat_natToChars (n : Nat) : digitsToNat (natToChars n) = n := by
  by_cases hn : n = 0
  · subst hn
    rfl
  · unfold natToChars digitsToNat
    rw [if_neg hn, digitsToNat_foldl_natToDigitsLE n n 0 le_rfl]
    simp

/-- Every character of the little-endian digit string is a digit
character (code at least 48). -/
theorem natToDigitsLE_ge_48 (fuel : Nat) :
    ∀ (n : Nat), ∀ c ∈ natToDigitsLE fuel n, 48 ≤ c := by
  induction fuel with
  | zero => intro n c hc; simp [natToDigitsLE] at hc
  | succ fuel ih =>
    intro n c hc
    by_cases hn : n = 0
    · simp [natToDigitsLE, hn] at hc
    · simp only [natToDigitsLE, if_neg hn] at hc
      rcases List.mem_cons.mp hc with h | h
      · omega
      · exact ih (n / 10) c h

/-- Every character of a decimal character string is a digit character. -/
theorem natToChars_ge_48 (n : Nat) : ∀ c ∈ natToChars n, 48 ≤ c := by
  intro c hc
  unfold natToChars at hc
  by_cases hn : n = 0
  · rw [if_pos hn] at hc
    simp at hc
    omega
  · rw [if_neg hn] at hc
    exact natToDigitsLE_ge_48 n n c (List.mem_reverse.mp hc)

/-- A decimal character string is never empty. -/
theorem natToChars_ne_nil (n : Nat) : natToChars n ≠ [] := by
  unfold natToChars
  by_cases hn : n = 0
  · rw [if_pos hn]
    simp
  · rw [if_neg hn]
    cases n with
    | zero => exact absurd rfl hn
    | succ m => simp [natToDigitsLE]

/-- Splitting an appended string at a separator absent from the left
part recovers the two parts. -/
theorem splitFirstSep_append (sep : Nat) (a b : List Nat) (h : ∀ c ∈ a, c ≠ sep) :
    splitFirstSep sep (a ++ sep :: b) = some (a, b) := by
  induction a with
  | nil => simp [splitFirstSep]
  | cons c rest ih =>
    have hc : c ≠ sep := h c (List.mem_cons_self ..)
    have hrest : ∀ x ∈ rest, x ≠ sep := fun x hx => h x (List.mem_cons_of_mem _ hx)
    simp only [List.cons_append, splitFirstSep, if_neg hc, List.append_eq, ih hrest]
    rfl

/-- One decoding step of the compound codec: a digit-only length prefix
followed by the tag and a sufficiently long remainder is consumed as one
sub-message. -/
theorem sigma_multiple_decodeAux_step (fuel : Nat) (pre rest : List Nat)
    (hpre : ∀ c ∈ pre, c ≠ 35) (hn : digitsToNat pre ≤ rest.length) :
    SigmaMultipleMsg.decodeAux (fuel + 1) (pre ++ 35 :: rest) =
      (SigmaMultipleMsg.decodeAux fuel (rest.drop (digitsToNat pre))).map
        (fun ps => rest.take (digitsToNat pre) :: ps) := by
  have hsplit : splitFirstSep 35 (pre ++ 35 :: rest) = some (pre, rest) :=
    splitFirstSep_append 35 pre rest hpre
  cases pre with
  | nil =>
    show (match splitFirstSep 35 ([] ++ 35 :: rest) with
          | none => none
          | some (pre3, rest3) =>
            if digitsToNat pre3 ≤ rest3.length then
              (SigmaMultipleMsg.decodeAux fuel (rest3.drop (digitsToNat pre3))).map
                (fun ps => rest3.take (digitsToNat pre3) :: ps)
            else none) = _
    rw [hsplit]
    simp [hn]
  | cons c pre2 =>
    show (match splitFirstSep 35 ((c :: pre2) ++ 35 :: rest) with
          | none => none
          | some (pre3, rest3) =>
            if digitsToNat pre3 ≤ rest3.length then
              (SigmaMultipleMsg.decodeAux fuel (rest3.drop (digitsToNat pre3))).map
                (fun ps => rest3.take (digitsToNat pre3) :: ps)
            else none) = _
    rw [hsplit]
    simp [hn]

/-- Decoding an encoded list of sub-message strings with enough fuel
recovers the list. -/
theorem sigma_multiple_roundtrip_aux (parts : List (List Nat)) :
    ∀ (fuel : Nat), (SigmaMultipleMsg.encode parts).length ≤ fuel →
      SigmaMultipleMsg.decodeAux fuel (SigmaMultipleMsg.encode parts) = some parts := by
  induction parts with
  | nil =>
    intro fuel h
    cases fuel with
    | zero => rfl
    | succ fuel2 => rfl
  | cons p ps ih =>
    intro fuel h
    have hE : SigmaMultipleMsg.encode (p :: ps)
        = natToChars p.length ++ 35 :: (p ++ SigmaMultipleMsg.encode ps) := rfl
    have hElen : (SigmaMultipleMsg.encode (p :: ps)).length
        = (natToChars p.length).length + 1 + (p.length + (SigmaMultipleMsg.encode ps).length) := by
      rw [hE]
      simp [List.length_append]
      omega
    cases fuel with
    | zero =>
      rw [hElen] at h
      omega
    | succ fuel =>
      have hpre : ∀ c ∈ natToChars p.length, c ≠ 35 := by
        intro c hc
        have := natToChars_ge_48 p.length c hc
        omega
      have hlenval : digitsToNat (natToChars p.length) = p.length :=
        digitsToNat_natToChars p.length
      have hn : digitsToNat (natToChars p.length)
          ≤ (p ++ SigmaMultipleMsg.encode ps).length := by
        rw [hlenval]
        simp [List.length_append]
      rw [hE, sigma_multiple_decodeAux_step fuel _ _ hpre hn, hlenval]
      have htake : (p ++ SigmaMultipleMsg.encode ps).take p.length = p :=
        List.take_left ..
      have hdrop : (p ++ SigmaMultipleMsg.encode ps).drop p.length
          = SigmaMultipleMsg.encode ps :=
        List.drop_left ..
      rw [htake, hdrop, ih fuel (by rw [hElen] at h; omega)]
      rfl

/-- C7 counterexample: a `SigmaDHMsg` whose first element's encoding
contains the separator character `58` (the colon) - here the 3-character
encoding `"1:2"` paired with `"3"` - does not survive the encode/decode
round trip: splitting on the first colon yields `("1", "2:3")`. -/
theorem sigma_dh_msg_roundtrip_counterexample :
    SigmaDHMsg.decode (SigmaDHMsg.encode [49, 58, 50] [51]) = ([49], [50, 58, 51]) ∧
    SigmaDHMsg.decode (SigmaDHMsg.encode [49, 58, 50] [51]) ≠ ([49, 58, 50], [51]) := by
  exact ⟨by decide, by decide⟩

/-- C7 (amended): decoding an encoding yields an equal message for every
`ScalarMsg` (the ASCII signed-decimal codec restores every integer), for
every `GroupElementMsg` (the message layer passes the element's own
serialized form through unchanged), for every `PairMsg` whose first
element's encoding does not contain the colon separator (the format
concatenates with `":"` and splits on the first colon), and for every
`CompoundMsg` under the length-prefixed sub-message format. -/
theorem sigma_msg_codec_roundtrip :
    (∀ z : Int, SigmaBIMsg.decode (SigmaBIMsg.encode z) = z) ∧
    (∀ enc : List Nat, SigmaGroupElementMsg.decode (SigmaGroupElementMsg.encode enc) = enc) ∧
    (∀ a b : List Nat, 58 ∉ a → SigmaDHMsg.decode (SigmaDHMsg.encode a b) = (a, b)) ∧
    (∀ parts : List (List Nat),
        SigmaMultipleMsg.decode (SigmaMultipleMsg.encode parts) = some parts) := by
  refine ⟨?_, fun enc => rfl, ?_, ?_⟩
  · intro z
    unfold SigmaBIMsg.encode
    by_cases hz : z < 0
    · rw [if_pos hz]
      have hd : SigmaBIMsg.decode (45 :: natToChars z.natAbs)
          = -(digitsToNat (natToChars z.natAbs) : Int) := rfl
      rw [hd, digitsToNat_natToChars]
      omega
    · rw [if_neg hz]
      have hne := natToChars_ne_nil z.toNat
      have hge := natToChars_ge_48 z.toNat
      cases hl : natToChars z.toNat with
      | nil => exact absurd hl hne
      | cons c rest =>
        have hc : 48 ≤ c := hge c (hl ▸ List.mem_cons_self ..)
        simp only [SigmaBIMsg.decode, if_neg (by omega : ¬ c = 45)]
        rw [← hl, digitsToNat_natToChars]
        omega
  · intro a b hab
    have h58 : ∀ c ∈ a, c ≠ 58 := fun c hc heq => hab (heq ▸ hc)
    unfold SigmaDHMsg.encode SigmaDHMsg.decode
    rw [splitFirstSep_append 58 a b h58]
  · intro parts
    exact sigma_multiple_roundtrip_aux parts _ le_rfl

/-- Witness for C7 (amended) at concrete values: the sentinel integer
`-100` round-trips, and a colon-free pair round-trips. -/
theorem sigma_msg_codec_roundtrip_witness :
    SigmaBIMsg.decode (SigmaBIMsg.encode (-100)) = -100 ∧
    (58 ∉ ([49, 50] : List Nat)) ∧
    SigmaDHMsg.decode (SigmaDHMsg.encode [49, 50] [51]) = ([49, 50], [51]) := by
  have h := sigma_msg_codec_roundtrip
  exact ⟨h.1 (-100), by decide, h.2.2.1 [49, 50] [51] (by decide)⟩
